import Mathlib

/-!
Verification of the `ElastiCache` facade (src/Elasticache.js) over a shallow
embedding.  The class wraps a conventional key-value store client (the
`redis` npm client) and normalizes outcomes into `HttpError` values with
HTTP-style status codes (404 for not-found/empty, 500 for store failures).

Modelling choices, in source order:

* Underlying client calls (`this.client.get`, `.del`, `.lRange`, `.keys`,
  `.hGetAll`, `.expire`, `.ttl`, `.type`) are modelled by a `RedisClient`
  structure of pure functions, each returning `Except JsError α`: either the
  value the store resolved with, or a rejected transport/protocol error
  (anything that is not an `HttpError` of this layer).  Client operations not
  used by any verified claim (`rPush`, `rPop`, `lRem`, `hSet`, `hGet`,
  `hDel`, `set`, connection management) are omitted.
* A JavaScript `try`/`catch` body is a value of `Except Thrown α`, where
  `Thrown` distinguishes an already classified `HttpError` from any other
  thrown value; each method's `catch` clause is one of `catchWrap`
  (re-throw `HttpError`s, wrap the rest as a 500 — the
  `if (err instanceof HttpError) throw err` pattern), `catchAll` (wrap
  everything as a 500 — `listGet`'s catch, which lacks the guard), or
  `catchSwallow` (re-throw `HttpError`s, swallow the rest — `refreshKey`).
* `JSON.stringify` / `JSON.parse` are modelled by an executable serializer
  and recursive-descent parser over a `Json` value tree.  Numbers are
  modelled as integers (IEEE-754 doubles are outside the embedding), and the
  serializer escapes `"`,`\`, the named control escapes and the remaining
  control characters as unicode escapes, as `JSON.stringify` does.
  A failed parse is a thrown `SyntaxError`, i.e. a non-`HttpError`.
* Development-mode logging (`this.dev`) never affects control flow and is
  not modelled.
-/

/-- A JSON value: the domain of `JSON.stringify`-serializable data, with
numbers restricted to integers (floating point is outside the embedding). -/
inductive Json where
  | null : Json
  | bool (b : Bool) : Json
  | num (n : Int) : Json
  | str (s : String) : Json
  | arr (elems : List Json) : Json
  | obj (fields : List (String × Json)) : Json
deriving Repr

/-- The uniform failure record of the facade (src/Elasticache.js lines 3-10):
a message and an HTTP-style status code.  The optional `error` cause field is
only populated by `connect`, which no claim concerns, so it is omitted. -/
structure HttpError where
  message : String
  statusCode : Nat
deriving Repr, DecidableEq

/-- A rejected value coming from the store client or the JS runtime that is
not an `HttpError` of this layer (transport failure, `SyntaxError`, ...). -/
structure JsError where
  msg : String
deriving Repr, DecidableEq

/-- A value thrown inside a `try` block: either an already classified
`HttpError` or any other error.  `catch` clauses discriminate with
`instanceof HttpError`. -/
inductive Thrown where
  | http (e : HttpError) : Thrown
  | js (e : JsError) : Thrown
deriving Repr, DecidableEq

/-- Outcome of a single underlying client call: the resolved value or a
rejected non-`HttpError`. -/
abbrev COut (α : Type) := Except JsError α

/-- The store client handle, one pure function per awaited client call used
by the verified operations.  `get`/`hGetAll` resolve with `none` for the
client's `null`; `hGetAll` on an absent key actually resolves with an empty
record (Redis HGETALL returns an empty reply and the client turns it into an
empty object, never `null`), which is `some []` here. -/
structure RedisClient where
  get : String → COut (Option String)
  del : String → COut Nat
  keys : String → COut (List String)
  lRange : String → Int → Int → COut (List String)
  hGetAll : String → COut (Option (List (String × String)))
  expire : String → Nat → COut Nat
  ttl : String → COut Int
  type : String → COut String

/-- What a read returns to the caller: the raw stored text, or the decoded
value when the `parse` flag was set. -/
inductive Value where
  | raw (s : String) : Value
  | json (j : Json) : Value
deriving Repr

/-- A value accumulated by `getAll` for one key, per the store-level type of
the key: a scalar read, a whole-list read, or a whole-hash read. -/
inductive AllVal where
  | scalar (v : Value) : AllVal
  | list (vs : List Value) : AllVal
  | hash (fs : List (String × Value)) : AllVal
deriving Repr

/-- The decimal digit character for `d < 10`. -/
def digitChar (d : Nat) : Char := Char.ofNat (48 + d)

/-- Decimal representation of a natural number, most significant digit
first. -/
def natChars (m : Nat) : List Char :=
  if m = 0 then ['0'] else (Nat.digits 10 m).reverse.map digitChar

/-- Decimal representation of an integer, as `JSON.stringify` prints an
integral number. -/
def intChars (n : Int) : List Char :=
  if n < 0 then '-' :: natChars n.natAbs else natChars n.natAbs

/-- Lower-case hexadecimal digit character for `d < 16`. -/
def hexDigitChar (d : Nat) : Char :=
  if d < 10 then Char.ofNat (48 + d) else Char.ofNat (87 + d)

/-- How `JSON.stringify` emits one character of a string literal: `"` and
`\` get a backslash escape, the control characters with named short escapes
use them, every other control character becomes a `\u00xx` escape, and all
remaining characters stand for themselves. -/
def escapeChar (c : Char) : List Char :=
  if c = '"' then ['\\', '"']
  else if c = '\\' then ['\\', '\\']
  else if c = '\x08' then ['\\', 'b']
  else if c = '\t' then ['\\', 't']
  else if c = '\n' then ['\\', 'n']
  else if c = '\x0c' then ['\\', 'f']
  else if c = '\r' then ['\\', 'r']
  else if c.toNat < 32 then
    '\\' :: 'u' :: '0' :: '0' :: hexDigitChar (c.toNat / 16) :: [hexDigitChar (c.toNat % 16)]
  else [c]

/-- The escaped body of a string literal followed by its closing quote. -/
def stringChars : List Char → List Char
  | [] => ['"']
  | c :: cs => escapeChar c ++ stringChars cs

mutual

/-- `JSON.stringify` of a value, as a character list (no opening quote is
needed here; each case emits its complete literal). -/
def jsonChars : Json → List Char
  | .null => "null".data
  | .bool b => if b then "true".data else "false".data
  | .num n => intChars n
  | .str s => '"' :: stringChars s.data
  | .arr es => '[' :: arrChars es
  | .obj fs => Char.ofNat 123 :: objChars fs

/-- The elements of an array literal, comma separated, followed by the
closing bracket. -/
def arrChars : List Json → List Char
  | [] => [']']
  | [v] => jsonChars v ++ [']']
  | v :: v1 :: vs => jsonChars v ++ ',' :: arrChars (v1 :: vs)

/-- The members of an object literal, comma separated, followed by the
closing brace. -/
def objChars : List (String × Json) → List Char
  | [] => [Char.ofNat 125]
  | [(k, v)] => '"' :: stringChars k.data ++ ':' :: jsonChars v ++ [Char.ofNat 125]
  | (k, v) :: m :: ms =>
    '"' :: stringChars k.data ++ ':' :: jsonChars v ++ ',' :: objChars (m :: ms)

end

/-- `JSON.stringify` over the modelled value domain. -/
def jsonStringify (v : Json) : String := String.mk (jsonChars v)

/-- JSON insignificant whitespace. -/
def isWs (c : Char) : Bool := c = ' ' || c = '\n' || c = '\t' || c = '\r'

/-- Drop leading insignificant whitespace. -/
def skipWs (cs : List Char) : List Char := cs.dropWhile isWs

/-- Decimal digit test. -/
def isDigitCh (c : Char) : Bool := 48 ≤ c.toNat && c.toNat ≤ 57

/-- Value of a hexadecimal digit character. -/
def hexVal (c : Char) : Option Nat :=
  if 48 ≤ c.toNat && c.toNat ≤ 57 then some (c.toNat - 48)
  else if 97 ≤ c.toNat && c.toNat ≤ 102 then some (c.toNat - 87)
  else if 65 ≤ c.toNat && c.toNat ≤ 70 then some (c.toNat - 55)
  else none

/-- Parse the body of a string literal after its opening quote, consuming
the closing quote: yields the decoded characters and the unconsumed tail.
Unescaped control characters are malformed, as in `JSON.parse`.  The fuel
argument only bounds the recursion depth; one unit per consumed character
is always enough. -/
def parseStringBody : Nat → List Char → Option (List Char × List Char)
  | 0, _ => none
  | _ + 1, [] => none
  | fuel + 1, c :: cs =>
    if c = '"' then some ([], cs)
    else if c = '\\' then
      match cs with
      | [] => none
      | e :: cs1 =>
        if e = '"' then (parseStringBody fuel cs1).map (fun p => ('"' :: p.1, p.2))
        else if e = '\\' then (parseStringBody fuel cs1).map (fun p => ('\\' :: p.1, p.2))
        else if e = '/' then (parseStringBody fuel cs1).map (fun p => ('/' :: p.1, p.2))
        else if e = 'b' then (parseStringBody fuel cs1).map (fun p => ('\x08' :: p.1, p.2))
        else if e = 't' then (parseStringBody fuel cs1).map (fun p => ('\t' :: p.1, p.2))
        else if e = 'n' then (parseStringBody fuel cs1).map (fun p => ('\n' :: p.1, p.2))
        else if e = 'f' then (parseStringBody fuel cs1).map (fun p => ('\x0c' :: p.1, p.2))
        else if e = 'r' then (parseStringBody fuel cs1).map (fun p => ('\r' :: p.1, p.2))
        else if e = 'u' then
          match cs1 with
          | h1 :: h2 :: h3 :: h4 :: cs2 =>
            match hexVal h1, hexVal h2, hexVal h3, hexVal h4 with
            | some a, some b, some c1, some d =>
              (parseStringBody fuel cs2).map
                (fun p => (Char.ofNat (((a * 16 + b) * 16 + c1) * 16 + d) :: p.1, p.2))
            | _, _, _, _ => none
          | _ => none
        else none
    else if c.toNat < 32 then none
    else (parseStringBody fuel cs).map (fun p => (c :: p.1, p.2))

/-- Consume a run of decimal digits, accumulating their value onto `acc`. -/
def parseDigits (acc : Nat) : List Char → Nat × List Char
  | [] => (acc, [])
  | c :: cs =>
    if isDigitCh c then parseDigits (acc * 10 + (c.toNat - 48)) cs
    else (acc, c :: cs)

/-- Parse an integral JSON number: an optional minus sign followed by at
least one digit. -/
def parseNumber : List Char → Option (Int × List Char)
  | [] => none
  | c :: cs =>
    if c = '-' then
      match cs with
      | [] => none
      | c1 :: cs1 =>
        if isDigitCh c1 then
          let p := parseDigits (c1.toNat - 48) cs1
          some (-(p.1 : Int), p.2)
        else none
    else if isDigitCh c then
      let p := parseDigits (c.toNat - 48) cs
      some ((p.1 : Int), p.2)
    else none

mutual

/-- Recursive-descent parser for one JSON value, fuel-indexed; yields the
value and the unconsumed tail. -/
def parseValue : Nat → List Char → Option (Json × List Char)
  | 0, _ => none
  | _ + 1, [] => none
  | fuel + 1, c :: rest =>
    if c = 'n' then
      match rest with
      | 'u' :: 'l' :: 'l' :: r => some (.null, r)
      | _ => none
    else if c = 't' then
      match rest with
      | 'r' :: 'u' :: 'e' :: r => some (.bool true, r)
      | _ => none
    else if c = 'f' then
      match rest with
      | 'a' :: 'l' :: 's' :: 'e' :: r => some (.bool false, r)
      | _ => none
    else if c = '"' then
      (parseStringBody fuel rest).map (fun p => (.str (String.mk p.1), p.2))
    else if c = '[' then
      match rest with
      | [] => none
      | r0 :: rtail =>
        if r0 = ']' then some (.arr [], rtail)
        else
          match parseElems fuel (r0 :: rtail) with
          | some p => some (.arr p.1, p.2)
          | none => none
    else if c = Char.ofNat 123 then
      match rest with
      | [] => none
      | r0 :: rtail =>
        if r0 = Char.ofNat 125 then some (.obj [], rtail)
        else
          match parseMembers fuel (r0 :: rtail) with
          | some p => some (.obj p.1, p.2)
          | none => none
    else
      (parseNumber (c :: rest)).map (fun p => (.num p.1, p.2))

/-- Parse the non-empty element list of an array literal, consuming the
closing bracket. -/
def parseElems : Nat → List Char → Option (List Json × List Char)
  | 0, _ => none
  | fuel + 1, cs =>
    match parseValue fuel cs with
    | none => none
    | some (v, rest) =>
      match rest with
      | [] => none
      | r0 :: rtail =>
        if r0 = ',' then (parseElems fuel rtail).map (fun p => (v :: p.1, p.2))
        else if r0 = ']' then some ([v], rtail)
        else none

/-- Parse the non-empty member list of an object literal, consuming the
closing brace. -/
def parseMembers : Nat → List Char → Option (List (String × Json) × List Char)
  | 0, _ => none
  | fuel + 1, cs =>
    match cs with
    | [] => none
    | c :: rest =>
      if c = '"' then
        match parseStringBody fuel rest with
        | none => none
        | some (kcs, rest1) =>
          match rest1 with
          | [] => none
          | c1 :: rest2 =>
            if c1 = ':' then
              match parseValue fuel rest2 with
              | none => none
              | some (v, rest3) =>
                match rest3 with
                | [] => none
                | c2 :: rest4 =>
                  if c2 = ',' then
                    (parseMembers fuel rest4).map
                      (fun p => ((String.mk kcs, v) :: p.1, p.2))
                  else if c2 = Char.ofNat 125 then some ([(String.mk kcs, v)], rest4)
                  else none
            else none
      else none

end

/-- `JSON.parse`: parse a complete value, allowing insignificant whitespace
around it; `none` is a thrown `SyntaxError`. -/
def jsonParse (s : String) : Option Json :=
  let cs := skipWs s.data
  match parseValue (cs.length + 1) cs with
  | some (v, rest) => if skipWs rest = [] then some v else none
  | none => none

/-- The `catch` clause shared by most methods: an already classified
`HttpError` is re-thrown unchanged (`if (err instanceof HttpError) throw
err`), anything else is wrapped as a 500 with the method's message. -/
def catchWrap (wrapMsg : String) (body : Except Thrown α) : Except HttpError α :=
  match body with
  | .ok a => .ok a
  | .error (.http e) => .error e
  | .error (.js _) => .error (HttpError.mk wrapMsg 500)

/-- `listGet`'s `catch` clause (src/Elasticache.js lines 195-198): it lacks
the `instanceof HttpError` guard, so every thrown value — including the
`HttpError` thrown in its own `try` block — is replaced by a 500 with the
method's message. -/
def catchAll (wrapMsg : String) (body : Except Thrown α) : Except HttpError α :=
  match body with
  | .ok a => .ok a
  | .error _ => .error (HttpError.mk wrapMsg 500)

/-- `refreshKey`'s `catch` clause (src/Elasticache.js lines 325-328): an
`HttpError` is re-thrown, but there is no final `throw`, so any other thrown
value is swallowed and the method resolves with `undefined`. -/
def catchSwallow (body : Except Thrown Unit) : Except HttpError Unit :=
  match body with
  | .ok _ => .ok ()
  | .error (.http e) => .error e
  | .error (.js _) => .ok ()

/-- `Promise.all` over already-started member operations whose results are
classified (`this.get` / `this.delete` calls): resolves with the results in
input order, or rejects with a failing member's `HttpError`. -/
def joinAll : List (Except HttpError α) → Except Thrown (List α)
  | [] => .ok []
  | x :: xs =>
    match x with
    | .error e => .error (.http e)
    | .ok a =>
      match joinAll xs with
      | .error t => .error t
      | .ok as1 => .ok (a :: as1)

namespace ElastiCache

/-- `get` (src/Elasticache.js lines 80-94): read the key; `null` means the
key is absent and throws 404 `Key not found`; otherwise return the raw text,
or its decoded value when `parse` is set (a malformed decode throws a
`SyntaxError`).  The catch re-throws `HttpError`s and wraps the rest as 500
`Error fetching from Redis`. -/
def get (c : RedisClient) (key : String) (parse : Bool) : Except HttpError Value :=
  catchWrap "Error fetching from Redis"
    (match c.get key with
     | .error e => .error (.js e)
     | .ok none => .error (.http (HttpError.mk "Key not found" 404))
     | .ok (some value) =>
       if parse then
         match jsonParse value with
         | none => .error (.js (JsError.mk "SyntaxError"))
         | some j => .ok (.json j)
       else .ok (.raw value))

/-- `delete` (src/Elasticache.js lines 102-115): delete the key; a zero
deleted-count throws 404 `Key not found`.  The catch re-throws `HttpError`s
and wraps the rest as 500 `Error deleting from Redis`. -/
def delete (c : RedisClient) (key : String) : Except HttpError Unit :=
  catchWrap "Error deleting from Redis"
    (match c.del key with
     | .error e => .error (.js e)
     | .ok result =>
       if result = 0 then .error (.http (HttpError.mk "Key not found" 404))
       else .ok ())

/-- `listGet` (src/Elasticache.js lines 187-199): read the inclusive
`start..stop` range of the list (`-1` meaning the last element), passing the
bounds to the store unmodified; an empty result throws 404 `List is empty`,
otherwise the elements are returned, each decoded when `parse` is set.  Its
catch is `catchAll`: unlike every other method it lacks the
`instanceof HttpError` guard. -/
def listGet (c : RedisClient) (key : String) (start stop : Int) (parse : Bool) :
    Except HttpError (List Value) :=
  catchAll "Error fetching from Redis list"
    (match c.lRange key start stop with
     | .error e => .error (.js e)
     | .ok values =>
       if values.length = 0 then .error (.http (HttpError.mk "List is empty" 404))
       else if parse then
         match values.mapM jsonParse with
         | none => .error (.js (JsError.mk "SyntaxError"))
         | some js1 => .ok (js1.map Value.json)
       else .ok (values.map Value.raw))

/-- `hashGetAll` (src/Elasticache.js lines 270-283): read the whole hash;
a `null` reply throws 404 `Field not found`; otherwise the field-value
record is returned, each value decoded when `parse` is set.  The catch
re-throws `HttpError`s and wraps the rest as 500 `Error finding the Redis
hash`.  (The unreachable dev-mode log of the `null` branch references an
undefined `field` variable; logging is not modelled.) -/
def hashGetAll (c : RedisClient) (key : String) (parse : Bool) :
    Except HttpError (List (String × Value)) :=
  catchWrap "Error finding the Redis hash"
    (match c.hGetAll key with
     | .error e => .error (.js e)
     | .ok none => .error (.http (HttpError.mk "Field not found" 404))
     | .ok (some fields) =>
       if parse then
         match fields.mapM (fun kv => (jsonParse kv.2).map (fun j => (kv.1, Value.json j))) with
         | none => .error (.js (JsError.mk "SyntaxError"))
         | some fs => .ok fs
       else .ok (fields.map (fun kv => (kv.1, Value.raw kv.2))))

/-- `refreshKey` (src/Elasticache.js lines 317-329): set the key's TTL; a
zero result throws 404 `Key not found`.  Its catch re-throws `HttpError`s
but swallows everything else (no final `throw`), so an unclassified store
failure resolves as a silent no-op. -/
def refreshKey (c : RedisClient) (key : String) (ttl : Nat) : Except HttpError Unit :=
  catchSwallow
    (match c.expire key ttl with
     | .error e => .error (.js e)
     | .ok result =>
       if result = 0 then .error (.http (HttpError.mk "Key not found" 404))
       else .ok ())

/-- `getTimeToLive` (src/Elasticache.js lines 373-386): query the key's TTL;
the store's key-absent sentinel `-2` throws 404 `Key not found`; any other
integer — including the no-TTL sentinel `-1` — is returned unchanged. -/
def getTimeToLive (c : RedisClient) (key : String) : Except HttpError Int :=
  catchWrap "Error fetching TTL from Redis"
    (match c.ttl key with
     | .error e => .error (.js e)
     | .ok ttl =>
       if ttl = -2 then .error (.http (HttpError.mk "Key not found" 404))
       else .ok ttl)

/-- `getByPrefix` (src/Elasticache.js lines 207-221): enumerate the keys
matching `<prefix>:*`; none throws 404 `Index not found`; otherwise fetch
every key's decoded value via `this.get(key, true)` under `Promise.all` and
pair the keys with the results positionally, in enumeration order. -/
def getByPrefix (c : RedisClient) (pre : String) :
    Except HttpError (List (String × Value)) :=
  catchWrap "Error fetching keys by prefix"
    (match c.keys (pre ++ ":*") with
     | .error e => .error (.js e)
     | .ok keyList =>
       if keyList.length = 0 then .error (.http (HttpError.mk "Index not found" 404))
       else
         match joinAll (keyList.map (fun k => get c k true)) with
         | .error t => .error t
         | .ok values => .ok (keyList.zip values))

/-- The `for (const key of keys)` loop of `getAll` (src/Elasticache.js lines
346-358): for each key in order, inspect its store-level type and
accumulate one record via the matching primitive read with decoding
enabled; keys of any other type contribute nothing; a thrown error aborts
the loop. -/
def getAllLoop (c : RedisClient) : List String → Except Thrown (List (String × AllVal))
  | [] => .ok []
  | key :: restKeys =>
    match c.type key with
    | .error e => .error (.js e)
    | .ok t =>
      if t = "string" then
        match get c key true with
        | .error e => .error (.http e)
        | .ok v =>
          match getAllLoop c restKeys with
          | .error t1 => .error t1
          | .ok vs => .ok ((key, .scalar v) :: vs)
      else if t = "list" then
        match listGet c key 0 (-1) true with
        | .error e => .error (.http e)
        | .ok v =>
          match getAllLoop c restKeys with
          | .error t1 => .error t1
          | .ok vs => .ok ((key, .list v) :: vs)
      else if t = "hash" then
        match hashGetAll c key true with
        | .error e => .error (.http e)
        | .ok v =>
          match getAllLoop c restKeys with
          | .error t1 => .error t1
          | .ok vs => .ok ((key, .hash v) :: vs)
      else getAllLoop c restKeys

/-- `getAll` (src/Elasticache.js lines 338-365): enumerate every key
(pattern `*`); none throws 404 `No keys found`; otherwise run the
type-dispatching loop. -/
def getAll (c : RedisClient) : Except HttpError (List (String × AllVal)) :=
  catchWrap "Error fetching all keys from Redis"
    (match c.keys "*" with
     | .error e => .error (.js e)
     | .ok keyList =>
       if keyList.length = 0 then .error (.http (HttpError.mk "No keys found" 404))
       else getAllLoop c keyList)

/-- `deleteAll` (src/Elasticache.js lines 394-408): enumerate the keys
matching `pattern` (the call-site default is `*`); none throws 404
`No keys found`; otherwise delete every enumerated key via `this.delete`
under `Promise.all`. -/
def deleteAll (c : RedisClient) (pattern : String) : Except HttpError Unit :=
  catchWrap "Error deleting all keys from Redis"
    (match c.keys pattern with
     | .error e => .error (.js e)
     | .ok keyList =>
       if keyList.length = 0 then .error (.http (HttpError.mk "No keys found" 404))
       else
         match joinAll (keyList.map (fun k => delete c k)) with
         | .error t => .error t
         | .ok _ => .ok ())

/-- The primitive delete calls `deleteAll` issues: `Promise.all` starts one
`this.delete(key)` per enumerated key; when enumeration is empty the 404 is
thrown before the `Promise.all` line, so no delete is issued (and none is
issued either when the enumeration itself rejects). -/
def deleteAllIssued (c : RedisClient) (pattern : String) : List String :=
  match c.keys pattern with
  | .error _ => []
  | .ok keyList => if keyList.length = 0 then [] else keyList

end ElastiCache

/-- Modelled from the spec (section 4.4, `getAll`): the record contributed by
one key — "determine its store-level type (string/list/hash) and dispatch to
the matching primitive read with decoding enabled, accumulating one
key→value record per key; keys of unrecognized type are silently skipped".
Used as the specification side of the refinement of `getAllLoop`. -/
def specRecord (c : RedisClient) (key : String) : Option (String × AllVal) :=
  match c.type key with
  | .error _ => none
  | .ok t =>
    if t = "string" then
      match ElastiCache.get c key true with
      | .ok v => some (key, .scalar v)
      | .error _ => none
    else if t = "list" then
      match ElastiCache.listGet c key 0 (-1) true with
      | .ok vs => some (key, .list vs)
      | .error _ => none
    else if t = "hash" then
      match ElastiCache.hashGetAll c key true with
      | .ok fs => some (key, .hash fs)
      | .error _ => none
    else none

/-- A client for a store holding nothing: every existence-sensitive call
resolves with its empty/zero/null result and nothing rejects. -/
def inertClient : RedisClient where
  get := fun _ => .ok none
  del := fun _ => .ok 0
  keys := fun _ => .ok []
  lRange := fun _ _ _ => .ok []
  hGetAll := fun _ => .ok none
  expire := fun _ _ => .ok 0
  ttl := fun _ => .ok (-1)
  type := fun _ => .ok "none"

/-- A client whose whole-hash read resolves the way the real client does on
a key with no hash entries: with an empty record, not `null`. -/
def emptyHashClient : RedisClient :=
  { inertClient with hGetAll := fun _ => .ok (some []) }

/-- A client enumerating a single key `k` whose member operations then fail
with classified 404s: `get` resolves `null`, `del` resolves `0`, and the
key's type is `string`. -/
def notFoundClient : RedisClient :=
  { inertClient with
    keys := fun _ => .ok ["k"]
    type := fun _ => .ok "string" }

/-- A client for the two-key prefix example: keys `p:1`, `p:2` store the
encoded numbers `1` and `2`. -/
def prefClient : RedisClient :=
  { inertClient with
    keys := fun _ => .ok ["p:1", "p:2"]
    get := fun k => .ok (some (if k = "p:1" then "1" else "2"))
    del := fun _ => .ok 1
    type := fun _ => .ok "string" }

/-- A client whose `expire` and `ttl` calls reject with a transport
failure. -/
def downClient : RedisClient :=
  { inertClient with
    expire := fun _ _ => .error (JsError.mk "ECONNRESET")
    ttl := fun _ => .error (JsError.mk "ECONNRESET") }

/-- A client reporting a live TTL of 9 seconds. -/
def ttlClient : RedisClient :=
  { inertClient with ttl := fun _ => .ok 9 }

/-- A client whose `ttl` call reports the key-absent sentinel `-2`. -/
def goneClient : RedisClient :=
  { inertClient with ttl := fun _ => .ok (-2) }

/-- The scalar keyspace of a live store: each key's stored text, most
recent write first. -/
def Store : Type := List (String × String)

/-- `SET key value`: the new binding shadows any previous one. -/
def storeSet (sigma : Store) (k v : String) : Store :=
  (k, v) :: sigma.filter (fun p => p.1 != k)

/-- `GET key`: the most recent binding, or `null`. -/
def storeGet (sigma : Store) (k : String) : Option String :=
  (sigma.find? (fun p => p.1 == k)).map (fun p => p.2)

/-- The client handle of a live store in state `sigma`: scalar reads
resolve from the store and nothing rejects.  Only `get` is exercised by the
round-trip claim. -/
def storeClient (sigma : Store) : RedisClient :=
  { inertClient with get := fun k => .ok (storeGet sigma k) }

/-- `set` (src/Elasticache.js lines 62-71) against a live store in state
`sigma`: `client.set(key, JSON.stringify(value), options)` writes the
encoded text and resolves; the `options` argument (`ttl ? EX : undefined`)
only schedules expiry, which has no effect on the stored text and is not
modelled (no notion of time).  A write to a connected store does not throw,
so the catch (wrap as 500 `Error saving to Redis`) is never exercised. -/
def ElastiCache.setOnStore (sigma : Store) (key : String) (value : Json)
    (ttl : Option Nat) : Except HttpError Store :=
  .ok (storeSet sigma key (jsonStringify value))

/-- The store state of the round-trip witness: the example value written
under key `k` by ` ElastiCache.setOnStore`. -/
def storeW : Store :=
  storeSet [] "k" (jsonStringify (Json.arr [Json.num 42, Json.str "John", Json.null]))

/-- Claim C1: when the store's range read resolves with an empty sequence,
`listGet` does NOT surface the 404 `List is empty` the claim states: the
`HttpError` thrown inside its `try` block is caught by its own `catch`,
which lacks the `instanceof HttpError` guard every sibling method has, and
is re-wrapped as 500 `Error fetching from Redis list`.  (The 404
classification and the unmodified inclusive range are plainly the intent —
see the thrown `HttpError('List is empty', 404)` on line 192 — so this is a
slip in the code, not in the claim.) -/
theorem c1_listGet_empty_misclassified (c : RedisClient) (key : String)
    (start stop : Int) (parse : Bool) (h : c.lRange key start stop = .ok []) :
    ElastiCache.listGet c key start stop parse
      = .error (HttpError.mk "Error fetching from Redis list" 500) ∧
    ElastiCache.listGet c key start stop parse
      ≠ .error (HttpError.mk "List is empty" 404) := by
  unfold ElastiCache.listGet
  rw [h]
  simp [catchAll]

/-- Claim C1 witness: a concrete empty range read (the inert client) is
re-wrapped as the 500. -/
theorem c1_witness :
    inertClient.lRange "mylist" 0 (-1) = .ok [] ∧
    ElastiCache.listGet inertClient "mylist" 0 (-1) true
      = .error (HttpError.mk "Error fetching from Redis list" 500) :=
  ⟨rfl, (c1_listGet_empty_misclassified inertClient "mylist" 0 (-1) true rfl).1⟩

/-- Claim C2 counterexample: with an `expire` call resolving `0` (absent
key), `refreshKey` does not resolve successfully — the caller observes the
re-raised 404 `Key not found`, because the catch clause
`if (error instanceof HttpError) throw error` re-throws the classified
error; only non-classified errors are swallowed. -/
theorem c2_counterexample :
    ElastiCache.refreshKey inertClient "k" 5
      = .error (HttpError.mk "Key not found" 404) := rfl

/-- Claim C2 (amended): when the underlying `expire` call resolves `0`, the
`NotFound` classification is re-raised like every other operation's — the
call fails with 404 `Key not found`; what `refreshKey` uniquely swallows
are errors not already classified (see claim C10). -/
theorem c2_refreshKey_reraises_notFound (c : RedisClient) (key : String)
    (ttl : Nat) (h : c.expire key ttl = .ok 0) :
    ElastiCache.refreshKey c key ttl = .error (HttpError.mk "Key not found" 404) := by
  unfold ElastiCache.refreshKey
  rw [h]
  simp [catchSwallow]

/-- Claim C2 (amended) witness: the inert client's `expire` resolves `0`
and `refreshKey` fails with the 404. -/
theorem c2_witness :
    inertClient.expire "k" 5 = .ok 0 ∧
    ElastiCache.refreshKey inertClient "k" 5
      = .error (HttpError.mk "Key not found" 404) :=
  ⟨rfl, c2_refreshKey_reraises_notFound inertClient "k" 5 rfl⟩

/-- Claim C3: on a key holding no hash entries the backing client's
`hGetAll` resolves with an empty record (never `null`), the code's
`value === null` check does not fire, and `hashGetAll` passes the empty
result through as a success — it does not fail with the 404 the claim (and
the spec's empty-result rule) states.  The dead `null` branch throwing 404
`Field not found` shows the claim matches the intent, so this is a code
slip. -/
theorem c3_hashGetAll_empty_passes (c : RedisClient) (key : String) (parse : Bool)
    (h : c.hGetAll key = .ok (some [])) :
    ElastiCache.hashGetAll c key parse = .ok [] := by
  unfold ElastiCache.hashGetAll
  rw [h]
  cases parse <;> simp [catchWrap, List.mapM, List.mapM.loop]

/-- Claim C3 witness: the empty-hash client's whole-hash read succeeds with
the empty record instead of failing 404. -/
theorem c3_witness :
    emptyHashClient.hGetAll "h" = .ok (some []) ∧
    ElastiCache.hashGetAll emptyHashClient "h" true = .ok [] :=
  ⟨rfl, c3_hashGetAll_empty_passes emptyHashClient "h" true rfl⟩

/-- Claim C9: `getTimeToLive` maps the key-absent sentinel `-2` to 404
`Key not found`, and returns any other resolved integer — including the
no-TTL sentinel `-1` — unchanged. -/
theorem c9_getTimeToLive_spec :
    (∀ (c : RedisClient) (key : String), c.ttl key = .ok (-2) →
      ElastiCache.getTimeToLive c key = .error (HttpError.mk "Key not found" 404)) ∧
    (∀ (c : RedisClient) (key : String) (t : Int), c.ttl key = .ok t → t ≠ -2 →
      ElastiCache.getTimeToLive c key = .ok t) := by
  constructor
  · intro c key h
    unfold ElastiCache.getTimeToLive
    rw [h]
    simp [catchWrap]
  · intro c key t h ht
    unfold ElastiCache.getTimeToLive
    rw [h]
    simp [catchWrap, ht]

/-- Claim C9 witness: the inert client's no-TTL sentinel `-1` passes
through; a client reporting `-2` fails 404. -/
theorem c9_witness :
    (inertClient.ttl "k" = .ok (-1) ∧ ElastiCache.getTimeToLive inertClient "k" = .ok (-1)) ∧
    (goneClient.ttl "k" = .ok (-2) ∧
      ElastiCache.getTimeToLive goneClient "k"
        = .error (HttpError.mk "Key not found" 404)) :=
  ⟨⟨rfl, c9_getTimeToLive_spec.2 inertClient "k" (-1) rfl (by decide)⟩,
   ⟨rfl, c9_getTimeToLive_spec.1 goneClient "k" rfl⟩⟩

/-- Claim C10: when the underlying `expire` call rejects with an
unclassified store-level failure, `refreshKey`'s catch — which re-throws
only `HttpError`s and has no final `throw` — swallows it and the call
resolves; and no outcome of `refreshKey` is a 500: its only failure is the
re-raised 404. -/
theorem c10_refreshKey_swallows_transport :
    (∀ (c : RedisClient) (key : String) (ttl : Nat) (e : JsError),
      c.expire key ttl = .error e → ElastiCache.refreshKey c key ttl = .ok ()) ∧
    (∀ (c : RedisClient) (key : String) (ttl : Nat) (err : HttpError),
      ElastiCache.refreshKey c key ttl = .error err → err.statusCode ≠ 500) := by
  constructor
  · intro c key ttl e h
    unfold ElastiCache.refreshKey
    rw [h]
    simp [catchSwallow]
  · intro c key ttl err h
    unfold ElastiCache.refreshKey at h
    cases hx : c.expire key ttl with
    | error e => rw [hx] at h; simp [catchSwallow] at h
    | ok r =>
      rw [hx] at h
      by_cases hr : r = 0
      · subst hr
        simp [catchSwallow] at h
        rw [← h]
        decide
      · simp [catchSwallow, hr] at h

/-- Claim C10 witness: a rejecting `expire` (transport failure) resolves as
a silent no-op. -/
theorem c10_witness :
    downClient.expire "k" 5 = .error (JsError.mk "ECONNRESET") ∧
    ElastiCache.refreshKey downClient "k" 5 = .ok () :=
  ⟨rfl, c10_refreshKey_swallows_transport.1 downClient "k" 5 (JsError.mk "ECONNRESET") rfl⟩

/-- `Promise.all` correspondence: a resolved join over mapped member
operations pairs every input, in order, with a successful result of its own
operation. -/
theorem joinAll_map_ok {α β : Type} (f : α → Except HttpError β) :
    ∀ (ks : List α) (vs : List β), joinAll (ks.map f) = .ok vs →
      List.Forall₂ (fun k v => f k = .ok v) ks vs := by
  intro ks
  induction ks with
  | nil => intro vs h; simp [joinAll] at h; simp [← h]
  | cons k rest ih =>
    intro vs h
    rw [List.map_cons] at h
    unfold joinAll at h
    cases hk : f k with
    | error e => rw [hk] at h; simp at h
    | ok a =>
      rw [hk] at h
      cases hrest : joinAll (rest.map f) with
      | error t => rw [hrest] at h; simp at h
      | ok as1 =>
        rw [hrest] at h
        simp at h
        rw [← h]
        exact List.Forall₂.cons hk (ih as1 hrest)

/-- The `getAll` loop, when it resolves, accumulates exactly one record per
recognized-type key, in key order, skipping the rest: its result is the
spec-side `specRecord` filter-map. -/
theorem getAllLoop_filterMap (c : RedisClient) :
    ∀ (ks : List String) (res : List (String × AllVal)),
      ElastiCache.getAllLoop c ks = .ok res → res = ks.filterMap (specRecord c) := by
  intro ks
  induction ks with
  | nil =>
    intro res h
    simp [ElastiCache.getAllLoop] at h
    simp [← h]
  | cons key rest ih =>
    intro res h
    unfold ElastiCache.getAllLoop at h
    rw [List.filterMap_cons]
    cases htype : c.type key with
    | error e =>
      rw [htype] at h
      simp at h
    | ok t =>
      rw [htype] at h
      simp only [] at h
      by_cases hs : t = "string"
      · rw [if_pos hs] at h
        cases hget : ElastiCache.get c key true with
        | error e => rw [hget] at h; simp at h
        | ok v =>
          rw [hget] at h
          cases hrec : ElastiCache.getAllLoop c rest with
          | error t1 => rw [hrec] at h; simp at h
          | ok vs =>
            rw [hrec] at h
            simp at h
            have hspec : specRecord c key = some (key, .scalar v) := by
              unfold specRecord
              rw [htype]
              simp [hs, hget]
            rw [hspec, ← h, ih vs hrec]
      · rw [if_neg hs] at h
        by_cases hl : t = "list"
        · rw [if_pos hl] at h
          cases hget : ElastiCache.listGet c key 0 (-1) true with
          | error e => rw [hget] at h; simp at h
          | ok v =>
            rw [hget] at h
            cases hrec : ElastiCache.getAllLoop c rest with
            | error t1 => rw [hrec] at h; simp at h
            | ok vs =>
              rw [hrec] at h
              simp at h
              have hspec : specRecord c key = some (key, .list v) := by
                unfold specRecord
                rw [htype]
                simp [hs, hl, hget]
              rw [hspec, ← h, ih vs hrec]
        · rw [if_neg hl] at h
          by_cases hh : t = "hash"
          · rw [if_pos hh] at h
            cases hget : ElastiCache.hashGetAll c key true with
            | error e => rw [hget] at h; simp at h
            | ok v =>
              rw [hget] at h
              cases hrec : ElastiCache.getAllLoop c rest with
              | error t1 => rw [hrec] at h; simp at h
              | ok vs =>
                rw [hrec] at h
                simp at h
                have hspec : specRecord c key = some (key, .hash v) := by
                  unfold specRecord
                  rw [htype]
                  simp [hs, hl, hh, hget]
                rw [hspec, ← h, ih vs hrec]
          · rw [if_neg hh] at h
            have hspec : specRecord c key = none := by
              unfold specRecord
              rw [htype]
              simp [hs, hl, hh]
            rw [hspec]
            exact ih res h

/-- Claim C5: each composite's catch clause checks `instanceof HttpError`
before wrapping, so an already classified error raised by a primitive
operation inside `getByPrefix`, `getAll` or `deleteAll` is re-raised
exactly — same message and status code — never re-wrapped as the
composite's generic 500. -/
theorem c5_composites_forward_classified :
    (∀ (c : RedisClient) (pre : String) (ks : List String) (e : HttpError),
      c.keys (pre ++ ":*") = .ok ks → ks ≠ [] →
      joinAll (ks.map (fun k => ElastiCache.get c k true)) = .error (.http e) →
      ElastiCache.getByPrefix c pre = .error e) ∧
    (∀ (c : RedisClient) (ks : List String) (e : HttpError),
      c.keys "*" = .ok ks → ks ≠ [] →
      ElastiCache.getAllLoop c ks = .error (.http e) →
      ElastiCache.getAll c = .error e) ∧
    (∀ (c : RedisClient) (pattern : String) (ks : List String) (e : HttpError),
      c.keys pattern = .ok ks → ks ≠ [] →
      joinAll (ks.map (fun k => ElastiCache.delete c k)) = .error (.http e) →
      ElastiCache.deleteAll c pattern = .error e) := by
  refine ⟨?_, ?_, ?_⟩
  · intro c pre ks e hkeys hne hjoin
    unfold ElastiCache.getByPrefix
    rw [hkeys]
    simp only []
    rw [if_neg (by simpa using hne)]
    rw [hjoin]
    simp [catchWrap]
  · intro c ks e hkeys hne hloop
    unfold ElastiCache.getAll
    rw [hkeys]
    simp only []
    rw [if_neg (by simpa using hne)]
    rw [hloop]
    simp [catchWrap]
  · intro c pattern ks e hkeys hne hjoin
    unfold ElastiCache.deleteAll
    rw [hkeys]
    simp only []
    rw [if_neg (by simpa using hne)]
    rw [hjoin]
    simp [catchWrap]

/-- Claim C5 witness: a client enumerating key `k` whose `get` resolves
`null` and whose `del` resolves `0` — the primitives classify these as 404s
and each composite surfaces that exact 404, not its own 500. -/
theorem c5_witness :
    (notFoundClient.keys ("p" ++ ":*") = .ok ["k"] ∧
      joinAll (["k"].map (fun k => ElastiCache.get notFoundClient k true))
        = .error (.http (HttpError.mk "Key not found" 404)) ∧
      ElastiCache.getByPrefix notFoundClient "p"
        = .error (HttpError.mk "Key not found" 404)) ∧
    (ElastiCache.getAllLoop notFoundClient ["k"]
        = .error (.http (HttpError.mk "Key not found" 404)) ∧
      ElastiCache.getAll notFoundClient = .error (HttpError.mk "Key not found" 404)) ∧
    (joinAll (["k"].map (fun k => ElastiCache.delete notFoundClient k))
        = .error (.http (HttpError.mk "Key not found" 404)) ∧
      ElastiCache.deleteAll notFoundClient "*"
        = .error (HttpError.mk "Key not found" 404)) :=
  ⟨⟨rfl, rfl,
    c5_composites_forward_classified.1 notFoundClient "p" ["k"]
      (HttpError.mk "Key not found" 404) rfl (by decide) rfl⟩,
   ⟨rfl,
    c5_composites_forward_classified.2.1 notFoundClient ["k"]
      (HttpError.mk "Key not found" 404) rfl (by decide) rfl⟩,
   ⟨rfl,
    c5_composites_forward_classified.2.2 notFoundClient "*" ["k"]
      (HttpError.mk "Key not found" 404) rfl (by decide) rfl⟩⟩

/-- Claim C6: `getByPrefix` enumerates exactly the pattern `<prefix>:*`; an
empty enumeration fails 404 `Index not found`; otherwise, when every
per-key decoded fetch resolves, it returns one key-value record per
enumerated key, in enumeration order, each value being the successful
result of `get` with parsing enabled on that record's key. -/
theorem c6_getByPrefix_spec :
    (∀ (c : RedisClient) (pre : String), c.keys (pre ++ ":*") = .ok [] →
      ElastiCache.getByPrefix c pre = .error (HttpError.mk "Index not found" 404)) ∧
    (∀ (c : RedisClient) (pre : String) (ks : List String) (vs : List Value),
      c.keys (pre ++ ":*") = .ok ks → ks ≠ [] →
      joinAll (ks.map (fun k => ElastiCache.get c k true)) = .ok vs →
      ElastiCache.getByPrefix c pre = .ok (ks.zip vs) ∧
      List.Forall₂ (fun k v => ElastiCache.get c k true = .ok v) ks vs) := by
  constructor
  · intro c pre hkeys
    unfold ElastiCache.getByPrefix
    rw [hkeys]
    simp [catchWrap]
  · intro c pre ks vs hkeys hne hjoin
    constructor
    · unfold ElastiCache.getByPrefix
      rw [hkeys]
      simp only []
      rw [if_neg (by simpa using hne)]
      rw [hjoin]
      simp [catchWrap]
    · exact joinAll_map_ok (fun k => ElastiCache.get c k true) ks vs hjoin

/-- Claim C6 witness: two keys under prefix `p` holding the encoded numbers
1 and 2 come back as ordered records pairing each key with its decoded
value. -/
theorem c6_witness :
    (prefClient.keys ("p" ++ ":*") = .ok ["p:1", "p:2"] ∧
      joinAll (["p:1", "p:2"].map (fun k => ElastiCache.get prefClient k true))
        = .ok [.json (.num 1), .json (.num 2)] ∧
      ElastiCache.getByPrefix prefClient "p"
        = .ok [("p:1", .json (.num 1)), ("p:2", .json (.num 2))]) ∧
    (inertClient.keys ("q" ++ ":*") = .ok [] ∧
      ElastiCache.getByPrefix inertClient "q"
        = .error (HttpError.mk "Index not found" 404)) :=
  ⟨⟨rfl, rfl,
    (c6_getByPrefix_spec.2 prefClient "p" ["p:1", "p:2"]
        [.json (.num 1), .json (.num 2)] rfl (by decide) rfl).1⟩,
   ⟨rfl, c6_getByPrefix_spec.1 inertClient "q" rfl⟩⟩

/-- Claim C7: `getAll` enumerates with pattern `*` and fails 404 when the
store is empty; otherwise, when the loop resolves, the result carries
exactly one record per key of recognized store-level type — string keys via
the decoded scalar read, list keys via the decoded full-range list read,
hash keys via the decoded whole-hash read — in key order, and keys of any
other type contribute no record (the `specRecord` filter-map). -/
theorem c7_getAll_spec :
    (∀ (c : RedisClient), c.keys "*" = .ok [] →
      ElastiCache.getAll c = .error (HttpError.mk "No keys found" 404)) ∧
    (∀ (c : RedisClient) (ks : List String) (res : List (String × AllVal)),
      c.keys "*" = .ok ks → ks ≠ [] →
      ElastiCache.getAllLoop c ks = .ok res →
      ElastiCache.getAll c = .ok res ∧ res = ks.filterMap (specRecord c)) := by
  constructor
  · intro c hkeys
    unfold ElastiCache.getAll
    rw [hkeys]
    simp [catchWrap]
  · intro c ks res hkeys hne hloop
    constructor
    · unfold ElastiCache.getAll
      rw [hkeys]
      simp only []
      rw [if_neg (by simpa using hne)]
      rw [hloop]
      simp [catchWrap]
    · exact getAllLoop_filterMap c ks res hloop

/-- Claim C7 witness: a two-key store of string-typed keys snapshots to one
decoded record per key; the filter-map equality comes from the theorem. -/
theorem c7_witness :
    (prefClient.keys "*" = .ok ["p:1", "p:2"] ∧
      ElastiCache.getAllLoop prefClient ["p:1", "p:2"]
        = .ok [("p:1", .scalar (.json (.num 1))), ("p:2", .scalar (.json (.num 2)))] ∧
      ElastiCache.getAll prefClient
        = .ok [("p:1", .scalar (.json (.num 1))), ("p:2", .scalar (.json (.num 2)))] ∧
      [("p:1", .scalar (.json (.num 1))), ("p:2", .scalar (.json (.num 2)))]
        = ["p:1", "p:2"].filterMap (specRecord prefClient)) ∧
    (inertClient.keys "*" = .ok [] ∧
      ElastiCache.getAll inertClient = .error (HttpError.mk "No keys found" 404)) :=
  ⟨⟨rfl, rfl,
    (c7_getAll_spec.2 prefClient ["p:1", "p:2"]
        [("p:1", .scalar (.json (.num 1))), ("p:2", .scalar (.json (.num 2)))]
        rfl (by decide) rfl).1,
    (c7_getAll_spec.2 prefClient ["p:1", "p:2"]
        [("p:1", .scalar (.json (.num 1))), ("p:2", .scalar (.json (.num 2)))]
        rfl (by decide) rfl).2⟩,
   ⟨rfl, c7_getAll_spec.1 inertClient rfl⟩⟩

/-- Claim C8: `deleteAll` on an empty enumeration fails 404 `No keys found`
and issues no delete; on a non-empty enumeration it issues one primitive
delete per enumerated key, resolves when they all resolve, and fails with a
failing member's own error when one rejects. -/
theorem c8_deleteAll_spec :
    (∀ (c : RedisClient) (pattern : String), c.keys pattern = .ok [] →
      ElastiCache.deleteAll c pattern = .error (HttpError.mk "No keys found" 404) ∧
      ElastiCache.deleteAllIssued c pattern = []) ∧
    (∀ (c : RedisClient) (pattern : String) (ks : List String),
      c.keys pattern = .ok ks → ks ≠ [] →
      ElastiCache.deleteAllIssued c pattern = ks ∧
      (∀ us, joinAll (ks.map (fun k => ElastiCache.delete c k)) = .ok us →
        ElastiCache.deleteAll c pattern = .ok ()) ∧
      (∀ e, joinAll (ks.map (fun k => ElastiCache.delete c k)) = .error (.http e) →
        ElastiCache.deleteAll c pattern = .error e)) := by
  constructor
  · intro c pattern hkeys
    constructor
    · unfold ElastiCache.deleteAll
      rw [hkeys]
      simp [catchWrap]
    · unfold ElastiCache.deleteAllIssued
      rw [hkeys]
      simp
  · intro c pattern ks hkeys hne
    refine ⟨?_, ?_, ?_⟩
    · unfold ElastiCache.deleteAllIssued
      rw [hkeys]
      simp only []
      rw [if_neg (by simpa using hne)]
    · intro us hjoin
      unfold ElastiCache.deleteAll
      rw [hkeys]
      simp only []
      rw [if_neg (by simpa using hne)]
      rw [hjoin]
      simp [catchWrap]
    · intro e hjoin
      unfold ElastiCache.deleteAll
      rw [hkeys]
      simp only []
      rw [if_neg (by simpa using hne)]
      rw [hjoin]
      simp [catchWrap]

/-- Claim C8 witness: with no matching key the call 404s and issues
nothing; with two keys both deletes are issued and the call resolves. -/
theorem c8_witness :
    (inertClient.keys "x:*" = .ok [] ∧
      ElastiCache.deleteAll inertClient "x:*" = .error (HttpError.mk "No keys found" 404) ∧
      ElastiCache.deleteAllIssued inertClient "x:*" = []) ∧
    (prefClient.keys "*" = .ok ["p:1", "p:2"] ∧
      ElastiCache.deleteAllIssued prefClient "*" = ["p:1", "p:2"] ∧
      ElastiCache.deleteAll prefClient "*" = .ok ()) :=
  ⟨⟨rfl, (c8_deleteAll_spec.1 inertClient "x:*" rfl).1,
    (c8_deleteAll_spec.1 inertClient "x:*" rfl).2⟩,
   ⟨rfl, (c8_deleteAll_spec.2 prefClient "*" ["p:1", "p:2"] rfl (by decide)).1,
    (c8_deleteAll_spec.2 prefClient "*" ["p:1", "p:2"] rfl (by decide)).2.1
      [(), ()] rfl⟩⟩

/-- Distinct code points give distinct characters. -/
theorem char_ne_of_toNat {a b : Char} (h : a.toNat ≠ b.toNat) : a ≠ b :=
  fun he => h (he ▸ rfl)

/-- `Char.ofNat` below the surrogate range keeps its code point. -/
theorem charToNat_ofNat (n : Nat) (h : n < 55296) : (Char.ofNat n).toNat = n := by
  simp [Char.ofNat, Char.toNat, Nat.isValidChar, h, Char.ofNatAux, UInt32.toNat,
    UInt32.ofNatCore]

/-- Code point of a decimal digit character. -/
theorem digitChar_toNat (d : Nat) (h : d < 10) : (digitChar d).toNat = 48 + d := by
  unfold digitChar
  exact charToNat_ofNat (48 + d) (by omega)

/-- Decimal digit characters pass the digit test. -/
theorem isDigitCh_digitChar (d : Nat) (h : d < 10) : isDigitCh (digitChar d) = true := by
  simp [isDigitCh, digitChar_toNat d h]
  omega

/-- The digit test characterizes code points 48-57. -/
theorem isDigitCh_iff (c : Char) : isDigitCh c = true ↔ 48 ≤ c.toNat ∧ c.toNat ≤ 57 := by
  simp [isDigitCh]

/-- A character that can start a serialized number — the minus sign or a
digit — is distinct from every literal-head character the value parser
tests first, cannot close an array, and is not whitespace. -/
theorem numHead_facts (c0 : Char) (h : c0 = '-' ∨ isDigitCh c0 = true) :
    c0 ≠ 'n' ∧ c0 ≠ 't' ∧ c0 ≠ 'f' ∧ c0 ≠ '"' ∧ c0 ≠ '[' ∧ c0 ≠ Char.ofNat 123 ∧
    c0 ≠ ']' ∧ isWs c0 = false := by
  rcases h with h | h
  · subst h
    decide
  · rw [isDigitCh_iff] at h
    have h123 : (Char.ofNat 123).toNat = 123 := charToNat_ofNat 123 (by omega)
    refine ⟨char_ne_of_toNat ?_, char_ne_of_toNat ?_, char_ne_of_toNat ?_,
      char_ne_of_toNat ?_, char_ne_of_toNat ?_, char_ne_of_toNat ?_,
      char_ne_of_toNat ?_, ?_⟩
    · show c0.toNat ≠ 110
      omega
    · show c0.toNat ≠ 116
      omega
    · show c0.toNat ≠ 102
      omega
    · show c0.toNat ≠ 34
      omega
    · show c0.toNat ≠ 91
      omega
    · rw [h123]
      omega
    · show c0.toNat ≠ 93
      omega
    · have h32 : c0 ≠ ' ' := char_ne_of_toNat (by show c0.toNat ≠ 32; omega)
      have h10 : c0 ≠ '\n' := char_ne_of_toNat (by show c0.toNat ≠ 10; omega)
      have h9 : c0 ≠ '\t' := char_ne_of_toNat (by show c0.toNat ≠ 9; omega)
      have h13 : c0 ≠ '\r' := char_ne_of_toNat (by show c0.toNat ≠ 13; omega)
      simp [isWs, h32, h10, h9, h13]

/-- Consuming a run of produced digit characters accumulates their value
left to right and stops exactly at the appended tail. -/
theorem parseDigits_map (ds : List Nat) (hds : ∀ d ∈ ds, d < 10) :
    ∀ (acc : Nat) (rest : List Char),
      (∀ c0 cs0, rest = c0 :: cs0 → isDigitCh c0 = false) →
      parseDigits acc (ds.map digitChar ++ rest)
        = (ds.foldl (fun a d => a * 10 + d) acc, rest) := by
  induction ds with
  | nil =>
    intro acc rest hrest
    simp only [List.map_nil, List.nil_append, List.foldl_nil]
    cases rest with
    | nil => rfl
    | cons c0 cs0 =>
      unfold parseDigits
      rw [if_neg (by simp [hrest c0 cs0 rfl])]
  | cons d ds ih =>
    intro acc rest hrest
    have hd : d < 10 := hds d (List.mem_cons_self d ds)
    simp only [List.map_cons, List.cons_append, List.foldl_cons]
    unfold parseDigits
    rw [if_pos (isDigitCh_digitChar d hd), digitChar_toNat d hd]
    have heq : 48 + d - 48 = d := by omega
    rw [heq]
    exact ih (fun x hx => hds x (List.mem_cons_of_mem d hx)) (acc * 10 + d) rest hrest

/-- Folding the big-endian digit list of `m` rebuilds `m`. -/
theorem foldl_digits (m : Nat) :
    ((Nat.digits 10 m).reverse).foldl (fun a d => a * 10 + d) 0 = m := by
  rw [List.foldl_reverse]
  have haux : ∀ ds : List Nat, ds.foldr (fun x y => y * 10 + x) 0 = Nat.ofDigits 10 ds := by
    intro ds
    induction ds with
    | nil => simp [Nat.ofDigits_nil]
    | cons d ds ih =>
      rw [List.foldr_cons, ih, Nat.ofDigits_cons]
      ring
  rw [haux]
  exact_mod_cast Nat.ofDigits_digits 10 m

/-- The decimal representation of `m` is a digit-character list headed by a
digit and folding back to `m`. -/
theorem natChars_digits (m : Nat) :
    ∃ d0 dtl, natChars m = digitChar d0 :: dtl.map digitChar ∧ d0 < 10 ∧
      (∀ d ∈ dtl, d < 10) ∧
      (d0 :: dtl).foldl (fun a d => a * 10 + d) 0 = m := by
  by_cases hm : m = 0
  · subst hm
    exact ⟨0, [], rfl, by omega, by simp, rfl⟩
  · have hne : Nat.digits 10 m ≠ [] := Nat.digits_ne_nil_iff_ne_zero.mpr hm
    have hne' : (Nat.digits 10 m).reverse ≠ [] := by simpa using hne
    obtain ⟨d0, dtl, hd⟩ := List.exists_cons_of_ne_nil hne'
    have hmem : ∀ d ∈ (Nat.digits 10 m).reverse, d < 10 := by
      intro d hdm
      exact Nat.digits_lt_base (by norm_num) (List.mem_reverse.mp hdm)
    refine ⟨d0, dtl, ?_, ?_, ?_, ?_⟩
    · unfold natChars
      rw [if_neg hm, hd]
      simp
    · exact hmem d0 (hd ▸ List.mem_cons_self d0 dtl)
    · intro d hdm
      exact hmem d (hd ▸ List.mem_cons_of_mem d0 hdm)
    · rw [← hd]
      exact foldl_digits m

/-- Parsing the decimal representation of a natural number recovers it,
stopping at a non-digit tail. -/
theorem parseNumber_natChars (m : Nat) (rest : List Char)
    (hrest : ∀ c0 cs0, rest = c0 :: cs0 → isDigitCh c0 = false) :
    parseNumber (natChars m ++ rest) = some ((m : Int), rest) := by
  obtain ⟨d0, dtl, hrep, hd0, hdtl, hfold⟩ := natChars_digits m
  rw [hrep]
  simp only [List.cons_append, parseNumber]
  have hne : digitChar d0 ≠ '-' := by
    apply char_ne_of_toNat
    rw [digitChar_toNat d0 hd0]
    show 48 + d0 ≠ 45
    omega
  rw [if_neg hne, if_pos (isDigitCh_digitChar d0 hd0), digitChar_toNat d0 hd0]
  have heq : 48 + d0 - 48 = d0 := by omega
  rw [heq]
  have hpd := parseDigits_map dtl hdtl d0 rest hrest
  rw [hpd]
  have : dtl.foldl (fun a d => a * 10 + d) d0 = m := by
    have h0 : (0 : Nat) * 10 + d0 = d0 := by omega
    calc dtl.foldl (fun a d => a * 10 + d) d0
        = dtl.foldl (fun a d => a * 10 + d) ((0 : Nat) * 10 + d0) := by rw [h0]
      _ = (d0 :: dtl).foldl (fun a d => a * 10 + d) 0 := (List.foldl_cons _ _).symm
      _ = m := hfold
  rw [this]

/-- Parsing the decimal representation of an integer recovers it, stopping
at a non-digit tail. -/
theorem parseNumber_intChars (n : Int) (rest : List Char)
    (hrest : ∀ c0 cs0, rest = c0 :: cs0 → isDigitCh c0 = false) :
    parseNumber (intChars n ++ rest) = some (n, rest) := by
  unfold intChars
  by_cases hn : n < 0
  · rw [if_pos hn]
    obtain ⟨d0, dtl, hrep, hd0, hdtl, hfold⟩ := natChars_digits n.natAbs
    rw [hrep]
    simp only [List.cons_append, parseNumber, if_true]
    rw [if_pos (isDigitCh_digitChar d0 hd0), digitChar_toNat d0 hd0]
    have heq : 48 + d0 - 48 = d0 := by omega
    rw [heq]
    rw [parseDigits_map dtl hdtl d0 rest hrest]
    have hfold' : dtl.foldl (fun a d => a * 10 + d) d0 = n.natAbs := by
      have h0 : (0 : Nat) * 10 + d0 = d0 := by omega
      calc dtl.foldl (fun a d => a * 10 + d) d0
          = dtl.foldl (fun a d => a * 10 + d) ((0 : Nat) * 10 + d0) := by rw [h0]
        _ = (d0 :: dtl).foldl (fun a d => a * 10 + d) 0 := (List.foldl_cons _ _).symm
        _ = n.natAbs := hfold
    rw [hfold']
    have : -((n.natAbs : Nat) : Int) = n := by omega
    rw [this]
  · rw [if_neg hn]
    rw [parseNumber_natChars n.natAbs rest hrest]
    have : ((n.natAbs : Nat) : Int) = n := by omega
    rw [this]

/-- The head of a serialized number is the minus sign or a digit. -/
theorem intChars_head (n : Int) :
    ∃ c0 cs0, intChars n = c0 :: cs0 ∧ (c0 = '-' ∨ isDigitCh c0 = true) := by
  unfold intChars
  by_cases hn : n < 0
  · rw [if_pos hn]
    exact ⟨'-', natChars n.natAbs, rfl, Or.inl rfl⟩
  · rw [if_neg hn]
    obtain ⟨d0, dtl, hrep, hd0, _, _⟩ := natChars_digits n.natAbs
    exact ⟨digitChar d0, dtl.map digitChar, hrep, Or.inr (isDigitCh_digitChar d0 hd0)⟩

/-- Hex digit characters decode to their value. -/
theorem hexVal_hexDigitChar (d : Nat) (h : d < 16) : hexVal (hexDigitChar d) = some d := by
  interval_cases d <;> decide

/-- Parsing the escaped body of a string recovers exactly the original
characters, consuming the closing quote and stopping at the appended tail;
one fuel unit per emitted character is enough. -/
theorem parseStringBody_stringChars :
    ∀ (cs : List Char) (rest : List Char) (fuel : Nat),
      (stringChars cs).length ≤ fuel →
      parseStringBody fuel (stringChars cs ++ rest) = some (cs, rest) := by
  intro cs
  induction cs with
  | nil =>
    intro rest fuel hfuel
    cases fuel with
    | zero => simp [stringChars] at hfuel
    | succ f => rfl
  | cons c cs ih =>
    intro rest fuel hfuel
    have hlen : 1 ≤ (escapeChar c).length := by
      unfold escapeChar
      split_ifs <;> simp
    have hlen2 : (stringChars (c :: cs)).length
        = (escapeChar c).length + (stringChars cs).length := by
      show (escapeChar c ++ stringChars cs).length = _
      simp
    obtain ⟨f, rfl⟩ : ∃ f, fuel = f + 1 := by
      cases fuel with
      | zero => omega
      | succ f => exact ⟨f, rfl⟩
    have hf : (stringChars cs).length ≤ f := by omega
    show parseStringBody (f + 1) ((escapeChar c ++ stringChars cs) ++ rest)
      = some (c :: cs, rest)
    rw [List.append_assoc]
    unfold escapeChar
    split_ifs with h1 h2 h3 h4 h5 h6 h7 h8
    · subst h1
      show (parseStringBody f (stringChars cs ++ rest)).map
          (fun p => ('"' :: p.1, p.2)) = _
      rw [ih rest f hf]
      rfl
    · subst h2
      show (parseStringBody f (stringChars cs ++ rest)).map
          (fun p => ('\\' :: p.1, p.2)) = _
      rw [ih rest f hf]
      rfl
    · subst h3
      show (parseStringBody f (stringChars cs ++ rest)).map
          (fun p => ('\x08' :: p.1, p.2)) = _
      rw [ih rest f hf]
      rfl
    · subst h4
      show (parseStringBody f (stringChars cs ++ rest)).map
          (fun p => ('\t' :: p.1, p.2)) = _
      rw [ih rest f hf]
      rfl
    · subst h5
      show (parseStringBody f (stringChars cs ++ rest)).map
          (fun p => ('\n' :: p.1, p.2)) = _
      rw [ih rest f hf]
      rfl
    · subst h6
      show (parseStringBody f (stringChars cs ++ rest)).map
          (fun p => ('\x0c' :: p.1, p.2)) = _
      rw [ih rest f hf]
      rfl
    · subst h7
      show (parseStringBody f (stringChars cs ++ rest)).map
          (fun p => ('\r' :: p.1, p.2)) = _
      rw [ih rest f hf]
      rfl
    · have e3 : hexVal (hexDigitChar (c.toNat / 16)) = some (c.toNat / 16) :=
        hexVal_hexDigitChar (c.toNat / 16) (by omega)
      have e4 : hexVal (hexDigitChar (c.toNat % 16)) = some (c.toNat % 16) :=
        hexVal_hexDigitChar (c.toNat % 16) (by omega)
      show (match hexVal '0', hexVal '0', hexVal (hexDigitChar (c.toNat / 16)),
            hexVal (hexDigitChar (c.toNat % 16)) with
        | some a, some b, some c1, some d =>
          (parseStringBody f (stringChars cs ++ rest)).map
            (fun p => (Char.ofNat (((a * 16 + b) * 16 + c1) * 16 + d) :: p.1, p.2))
        | _, _, _, _ => none) = some (c :: cs, rest)
      rw [show hexVal '0' = some 0 from by decide, e3, e4]
      simp only []
      rw [ih rest f hf]
      have hcode : ((0 * 16 + 0) * 16 + c.toNat / 16) * 16 + c.toNat % 16 = c.toNat := by
        omega
      rw [hcode, Char.ofNat_toNat]
      rfl
    · show parseStringBody (f + 1) (c :: (stringChars cs ++ rest)) = some (c :: cs, rest)
      have hstep : parseStringBody (f + 1) (c :: (stringChars cs ++ rest))
          = if c = '"' then some ([], stringChars cs ++ rest)
            else if c = '\\' then
              match stringChars cs ++ rest with
              | [] => none
              | e :: cs1 =>
                if e = '"' then (parseStringBody f cs1).map (fun p => ('"' :: p.1, p.2))
                else if e = '\\' then
                  (parseStringBody f cs1).map (fun p => ('\\' :: p.1, p.2))
                else if e = '/' then
                  (parseStringBody f cs1).map (fun p => ('/' :: p.1, p.2))
                else if e = 'b' then
                  (parseStringBody f cs1).map (fun p => ('\x08' :: p.1, p.2))
                else if e = 't' then
                  (parseStringBody f cs1).map (fun p => ('\t' :: p.1, p.2))
                else if e = 'n' then
                  (parseStringBody f cs1).map (fun p => ('\n' :: p.1, p.2))
                else if e = 'f' then
                  (parseStringBody f cs1).map (fun p => ('\x0c' :: p.1, p.2))
                else if e = 'r' then
                  (parseStringBody f cs1).map (fun p => ('\r' :: p.1, p.2))
                else if e = 'u' then
                  match cs1 with
                  | h1 :: h2 :: h3 :: h4 :: cs2 =>
                    match hexVal h1, hexVal h2, hexVal h3, hexVal h4 with
                    | some a, some b, some c1, some d =>
                      (parseStringBody f cs2).map
                        (fun p =>
                          (Char.ofNat (((a * 16 + b) * 16 + c1) * 16 + d) :: p.1, p.2))
                    | _, _, _, _ => none
                  | _ => none
                else none
            else if c.toNat < 32 then none
            else (parseStringBody f (stringChars cs ++ rest)).map
              (fun p => (c :: p.1, p.2)) := rfl
      rw [hstep, if_neg h1, if_neg h2, if_neg (by simpa using h8)]
      rw [ih rest f hf]
      rfl

/-- The serializer's output always starts with a character that cannot
close an array and is not whitespace. -/
theorem jsonChars_head (v : Json) :
    ∃ c0 cs0, jsonChars v = c0 :: cs0 ∧ c0 ≠ ']' ∧ isWs c0 = false := by
  cases v with
  | null => exact ⟨'n', _, rfl, by decide, by decide⟩
  | bool b =>
    cases b with
    | false => exact ⟨'f', _, rfl, by decide, by decide⟩
    | true => exact ⟨'t', _, rfl, by decide, by decide⟩
  | num n =>
    obtain ⟨c0, cs0, hrep, hc⟩ := intChars_head n
    obtain ⟨_, _, _, _, _, _, h7, h8⟩ := numHead_facts c0 hc
    exact ⟨c0, cs0, by rw [show jsonChars (Json.num n) = intChars n from rfl, hrep],
      h7, h8⟩
  | str s => exact ⟨'"', _, rfl, by decide, by decide⟩
  | arr es => exact ⟨'[', _, rfl, by decide, by decide⟩
  | obj fs => exact ⟨Char.ofNat 123, _, rfl, by decide, by decide⟩

/-- Serialized values are nonempty. -/
theorem jsonChars_length_pos (v : Json) : 0 < (jsonChars v).length := by
  obtain ⟨c0, cs0, h, _, _⟩ := jsonChars_head v
  rw [h]
  simp

/-- Serialized array tails are nonempty. -/
theorem arrChars_length_pos (es : List Json) : 0 < (arrChars es).length := by
  match es with
  | [] => decide
  | [v] =>
    show 0 < (jsonChars v ++ [']']).length
    simp
  | v :: v1 :: vs =>
    show 0 < (jsonChars v ++ ',' :: arrChars (v1 :: vs)).length
    simp

/-- Serialized object tails are nonempty. -/
theorem objChars_length_pos (fs : List (String × Json)) : 0 < (objChars fs).length := by
  match fs with
  | [] => decide
  | [(k, v)] =>
    show 0 < ('"' :: stringChars k.data ++ ':' :: jsonChars v ++ [Char.ofNat 125]).length
    simp
  | (k, v) :: m :: ms =>
    show 0 <
      ('"' :: stringChars k.data ++ ':' :: jsonChars v ++ ',' :: objChars (m :: ms)).length
    simp

/-- One step of the value parser on a number head: the keyword, string,
array and object branches all fall through and the number parser's verdict
is returned. -/
theorem parseValue_num_step (fuel : Nat) (c0 : Char) (cs0 : List Char)
    (r : Int × List Char) (hc : c0 = '-' ∨ isDigitCh c0 = true)
    (hp : parseNumber (c0 :: cs0) = some r) :
    parseValue (fuel + 1) (c0 :: cs0) = some (.num r.1, r.2) := by
  obtain ⟨hn, ht, hf, hq, hb, hob, _, _⟩ := numHead_facts c0 hc
  simp only [parseValue]
  rw [if_neg hn, if_neg ht, if_neg hf, if_neg hq, if_neg hb, if_neg hob, hp]
  rfl

/-- One step of the value parser on a quote head. -/
theorem parseValue_str_step (fuel : Nat) (cs0 : List Char) :
    parseValue (fuel + 1) ('"' :: cs0)
      = (parseStringBody fuel cs0).map (fun p => (Json.str (String.mk p.1), p.2)) := rfl

/-- One step of the value parser on a bracket head followed by a non-empty
element list. -/
theorem parseValue_arr_step (fuel : Nat) (c0 : Char) (cs0 : List Char)
    (r : List Json × List Char) (hne : c0 ≠ ']')
    (hp : parseElems fuel (c0 :: cs0) = some r) :
    parseValue (fuel + 1) ('[' :: c0 :: cs0) = some (.arr r.1, r.2) := by
  simp only [parseValue]
  simp only [show ('[' = 'n') = False from by decide, show ('[' = 't') = False from by decide,
    show ('[' = 'f') = False from by decide, show ('[' = '"') = False from by decide,
    if_false, if_pos rfl]
  rw [if_neg hne, hp]
  simp

/-- One step of the value parser on a brace head followed by a non-empty
member list. -/
theorem parseValue_obj_step (fuel : Nat) (c0 : Char) (cs0 : List Char)
    (r : List (String × Json) × List Char) (hne : c0 ≠ Char.ofNat 125)
    (hp : parseMembers fuel (c0 :: cs0) = some r) :
    parseValue (fuel + 1) (Char.ofNat 123 :: c0 :: cs0) = some (.obj r.1, r.2) := by
  simp only [parseValue]
  simp only [show (Char.ofNat 123 = 'n') = False from by decide,
    show (Char.ofNat 123 = 't') = False from by decide,
    show (Char.ofNat 123 = 'f') = False from by decide,
    show (Char.ofNat 123 = '"') = False from by decide,
    show (Char.ofNat 123 = '[') = False from by decide,
    if_false, if_pos rfl]
  rw [if_neg hne, hp]
  simp

/-- Round-trip core: parsing a serialized value yields exactly that value,
leaving an appended tail untouched, whenever the fuel covers the serialized
length (the parser burns at most one unit per emitted character) and the
tail cannot extend a number literal.  The three conjuncts cover values,
array element lists and object member lists; the induction is on fuel. -/
theorem parse_jsonChars :
    ∀ fuel : Nat,
      (∀ (v : Json) (rest : List Char), (jsonChars v).length ≤ fuel →
        (∀ c1 cs1, rest = c1 :: cs1 → isDigitCh c1 = false) →
        parseValue fuel (jsonChars v ++ rest) = some (v, rest)) ∧
      (∀ (es : List Json) (rest : List Char), es ≠ [] → (arrChars es).length ≤ fuel →
        parseElems fuel (arrChars es ++ rest) = some (es, rest)) ∧
      (∀ (fs : List (String × Json)) (rest : List Char), fs ≠ [] →
        (objChars fs).length ≤ fuel →
        parseMembers fuel (objChars fs ++ rest) = some (fs, rest)) := by
  intro fuel
  induction fuel with
  | zero =>
    refine ⟨?_, ?_, ?_⟩
    · intro v rest hlen _
      exact absurd hlen (by have := jsonChars_length_pos v; omega)
    · intro es rest _ hlen
      exact absurd hlen (by have := arrChars_length_pos es; omega)
    · intro fs rest _ hlen
      exact absurd hlen (by have := objChars_length_pos fs; omega)
  | succ fuel ih =>
    obtain ⟨ihP, ihQ, ihR⟩ := ih
    refine ⟨?_, ?_, ?_⟩
    · intro v rest hlen hrest
      cases v with
      | null => exact rfl
      | bool b =>
        cases b with
        | true => exact rfl
        | false => exact rfl
      | num n =>
        obtain ⟨c0, cs0, hrep, hc⟩ := intChars_head n
        have hnum : parseNumber (intChars n ++ rest) = some (n, rest) :=
          parseNumber_intChars n rest hrest
        have hrw : intChars n ++ rest = c0 :: (cs0 ++ rest) := by
          rw [hrep]
          rfl
        show parseValue (fuel + 1) (intChars n ++ rest) = some (.num n, rest)
        rw [hrw]
        exact parseValue_num_step fuel c0 (cs0 ++ rest) (n, rest) hc
          (by rw [← hrw]; exact hnum)
      | str s =>
        show parseValue (fuel + 1) ('"' :: (stringChars s.data ++ rest))
          = some (.str s, rest)
        rw [parseValue_str_step fuel (stringChars s.data ++ rest)]
        have hl : (stringChars s.data).length ≤ fuel := by
          have hx : (jsonChars (Json.str s)).length = (stringChars s.data).length + 1 := by
            show ('"' :: stringChars s.data).length = _
            simp
          omega
        rw [parseStringBody_stringChars s.data rest fuel hl]
        rfl
      | arr es =>
        cases es with
        | nil => exact rfl
        | cons v vs =>
          obtain ⟨c0, cs0, hv, hcne, _⟩ := jsonChars_head v
          obtain ⟨T, hT⟩ : ∃ T, arrChars (v :: vs) = jsonChars v ++ T := by
            cases vs with
            | nil => exact ⟨[']'], rfl⟩
            | cons v1 vs1 => exact ⟨',' :: arrChars (v1 :: vs1), rfl⟩
          show parseValue (fuel + 1) ('[' :: (arrChars (v :: vs) ++ rest))
            = some (.arr (v :: vs), rest)
          have hcons : arrChars (v :: vs) ++ rest = c0 :: (cs0 ++ (T ++ rest)) := by
            rw [hT, hv]
            simp
          rw [hcons]
          apply parseValue_arr_step fuel c0 (cs0 ++ (T ++ rest)) (v :: vs, rest) hcne
          rw [← hcons]
          refine ihQ (v :: vs) rest (by simp) ?_
          have hx : (jsonChars (Json.arr (v :: vs))).length
              = (arrChars (v :: vs)).length + 1 := by
            show ('[' :: arrChars (v :: vs)).length = _
            simp
          omega
      | obj fs =>
        cases fs with
        | nil => exact rfl
        | cons kv ms =>
          obtain ⟨k, x⟩ := kv
          obtain ⟨T, hT⟩ : ∃ T, objChars ((k, x) :: ms)
              = '"' :: (stringChars k.data ++ ':' :: jsonChars x ++ T) := by
            cases ms with
            | nil => exact ⟨[Char.ofNat 125], rfl⟩
            | cons m1 ms1 => exact ⟨',' :: objChars (m1 :: ms1), rfl⟩
          show parseValue (fuel + 1) (Char.ofNat 123 :: (objChars ((k, x) :: ms) ++ rest))
            = some (.obj ((k, x) :: ms), rest)
          have hcons : objChars ((k, x) :: ms) ++ rest
              = '"' :: (stringChars k.data ++ ':' :: jsonChars x ++ T ++ rest) := by
            rw [hT]
            simp
          rw [hcons]
          apply parseValue_obj_step fuel '"'
            (stringChars k.data ++ ':' :: jsonChars x ++ T ++ rest)
            ((k, x) :: ms, rest) (by decide)
          rw [← hcons]
          refine ihR ((k, x) :: ms) rest (by simp) ?_
          have hx : (jsonChars (Json.obj ((k, x) :: ms))).length
              = (objChars ((k, x) :: ms)).length + 1 := by
            show (Char.ofNat 123 :: objChars ((k, x) :: ms)).length = _
            simp
          omega
    · intro es rest hne hlen
      cases es with
      | nil => exact absurd rfl hne
      | cons v vs =>
        cases vs with
        | nil =>
          have h1 : arrChars [v] ++ rest = jsonChars v ++ (']' :: rest) := by
            show (jsonChars v ++ [']']) ++ rest = _
            simp
          have hlv : (jsonChars v).length ≤ fuel := by
            have hx : (arrChars [v]).length = (jsonChars v).length + 1 := by
              show (jsonChars v ++ [']']).length = _
              simp
            omega
          have hp := ihP v (']' :: rest) hlv
            (by intro c1 cs1 h; injection h with ha hb; rw [← ha]; decide)
          rw [h1]
          simp only [parseElems]
          rw [hp]
          simp
        | cons v1 vs1 =>
          have h1 : arrChars (v :: v1 :: vs1) ++ rest
              = jsonChars v ++ (',' :: (arrChars (v1 :: vs1) ++ rest)) := by
            show (jsonChars v ++ ',' :: arrChars (v1 :: vs1)) ++ rest = _
            simp
          have hlens : (arrChars (v :: v1 :: vs1)).length
              = (jsonChars v).length + 1 + (arrChars (v1 :: vs1)).length := by
            show (jsonChars v ++ ',' :: arrChars (v1 :: vs1)).length = _
            simp
            omega
          have hp := ihP v (',' :: (arrChars (v1 :: vs1) ++ rest)) (by omega)
            (by intro c1 cs1 h; injection h with ha hb; rw [← ha]; decide)
          rw [h1]
          simp only [parseElems]
          rw [hp]
          simp only []
          rw [ihQ (v1 :: vs1) rest (by simp) (by omega)]
          simp
    · intro fs rest hne hlen
      cases fs with
      | nil => exact absurd rfl hne
      | cons kv ms =>
        obtain ⟨k, x⟩ := kv
        cases ms with
        | nil =>
          have h1 : objChars [(k, x)] ++ rest
              = '"' :: (stringChars k.data
                  ++ (':' :: (jsonChars x ++ (Char.ofNat 125 :: rest)))) := by
            show ('"' :: stringChars k.data ++ ':' :: jsonChars x ++ [Char.ofNat 125])
                ++ rest = _
            simp
          have hlens : (objChars [(k, x)]).length
              = (stringChars k.data).length + (jsonChars x).length + 3 := by
            show ('"' :: stringChars k.data ++ ':' :: jsonChars x
                ++ [Char.ofNat 125]).length = _
            simp
            omega
          have hkey := parseStringBody_stringChars k.data
            (':' :: (jsonChars x ++ (Char.ofNat 125 :: rest))) fuel (by omega)
          have hval := ihP x (Char.ofNat 125 :: rest) (by omega)
            (by intro c1 cs1 h; injection h with ha hb; rw [← ha]; decide)
          rw [h1]
          simp only [parseMembers]
          simp only [show ('"' = '"') = True from by simp, if_true]
          rw [hkey]
          simp only []
          rw [hval]
          simp
        | cons m1 ms1 =>
          have h1 : objChars ((k, x) :: m1 :: ms1) ++ rest
              = '"' :: (stringChars k.data
                  ++ (':' :: (jsonChars x ++ (',' :: (objChars (m1 :: ms1) ++ rest))))) := by
            show ('"' :: stringChars k.data ++ ':' :: jsonChars x
                ++ ',' :: objChars (m1 :: ms1)) ++ rest = _
            simp
          have hlens : (objChars ((k, x) :: m1 :: ms1)).length
              = (stringChars k.data).length + (jsonChars x).length
                + (objChars (m1 :: ms1)).length + 3 := by
            show ('"' :: stringChars k.data ++ ':' :: jsonChars x
                ++ ',' :: objChars (m1 :: ms1)).length = _
            simp
            omega
          have hkey := parseStringBody_stringChars k.data
            (':' :: (jsonChars x ++ (',' :: (objChars (m1 :: ms1) ++ rest)))) fuel (by omega)
          have hval := ihP x (',' :: (objChars (m1 :: ms1) ++ rest)) (by omega)
            (by intro c1 cs1 h; injection h with ha hb; rw [← ha]; decide)
          rw [h1]
          simp only [parseMembers]
          simp only [show ('"' = '"') = True from by simp, if_true]
          rw [hkey]
          simp only []
          rw [hval]
          simp only []
          rw [ihR (m1 :: ms1) rest (by simp) (by omega)]
          simp

/-- The Codec round-trip law: decoding an encoded value returns it. -/
theorem jsonParse_stringify (v : Json) : jsonParse (jsonStringify v) = some v := by
  obtain ⟨c0, cs0, hrep, _, hws⟩ := jsonChars_head v
  have hskip : skipWs (jsonChars v) = jsonChars v := by
    rw [hrep]
    simp [skipWs, List.dropWhile_cons, hws]
  unfold jsonParse
  simp only [show (jsonStringify v).data = jsonChars v from rfl, hskip]
  have hP := (parse_jsonChars ((jsonChars v).length + 1)).1 v [] (by omega)
    (by intro c1 cs1 h; exact absurd h (by simp))
  rw [List.append_nil] at hP
  rw [hP]
  simp [skipWs]

/-- Writing under a key makes the written text the key's most recent
binding. -/
theorem storeGet_storeSet (sigma : Store) (k val : String) :
    storeGet (storeSet sigma k val) k = some val := by
  simp [storeGet, storeSet, List.find?]

/-- Claim C4: a successful `set(k, v)` writes `JSON.stringify(v)` and a
following successful `get(k, parse=true)` reads that text back and decodes
it, returning a value structurally equal to `v` — the Codec round-trip law
`decode(encode(v)) = v` lifted to the write/read pair through the store. -/
theorem c4_set_get_roundtrip (sigma sigma' : Store) (k : String) (v : Json)
    (ttl : Option Nat) (h : ElastiCache.setOnStore sigma k v ttl = .ok sigma') :
    ElastiCache.get (storeClient sigma') k true = .ok (.json v) := by
  have hs : storeSet sigma k (jsonStringify v) = sigma' := by
    unfold ElastiCache.setOnStore at h
    exact Except.ok.inj h
  subst hs
  unfold ElastiCache.get
  simp only [show (storeClient (storeSet sigma k (jsonStringify v))).get k
      = .ok (storeGet (storeSet sigma k (jsonStringify v)) k) from rfl]
  rw [storeGet_storeSet]
  simp [jsonParse_stringify, catchWrap]

/-- Claim C4 witness: writing a concrete array under `k` on the empty store
and reading it back with parsing returns the same value. -/
theorem c4_witness :
    ElastiCache.setOnStore [] "k" (Json.arr [Json.num 42, Json.str "John", Json.null])
        none = .ok storeW ∧
    ElastiCache.get (storeClient storeW) "k" true
      = .ok (.json (Json.arr [Json.num 42, Json.str "John", Json.null])) :=
  ⟨rfl, c4_set_get_roundtrip [] storeW "k"
    (Json.arr [Json.num 42, Json.str "John", Json.null]) none rfl⟩
